import Mathlib

/-!
Shallow embedding of the finite-state-machine engine from `include/fsm.hpp`.

States are identified by a name of type `T` (the C++ template parameter) and
guards receive an entity id plus one argument pack, modelled as a single value
of type `A`.  The C++ `std::shared_ptr<State>` graph has exactly one `State`
object per name (the registry never replaces or removes entries), so shared
pointers are modelled by state names and pointer equality by name equality.

Callback invocations are the observable events: calling a state's `on_enter`
or `on_exit` callback is recorded as an `Event` paired with the machine's
current state at the moment the callback runs.  Each operation additionally
returns the list of transition indices whose guards were evaluated, modelling
the instrumented guard-call counter the specification describes.

C++ `assert` failures are modelled by `Option`: an operation whose
precondition fails returns `none`.
-/

namespace FSM

/-- An observable callback invocation: the callback kind, the name of the
state whose callback runs, and the entity id passed to it. -/
inductive Event (T : Type) where
  | enter (name : T) (entity_id : Nat)
  | exit (name : T) (entity_id : Nat)
deriving DecidableEq

/-- `Transition` from `fsm.hpp`: target state (by name, standing for the
shared pointer) and the guard condition. -/
structure Transition (T A : Type) where
  target : T
  condition : Nat → A → Bool

/-- `TransitionCache` from `fsm.hpp`: the remembered target and the index of
the cached transition in the owning state's transition list. -/
structure TransitionCache (T : Type) where
  target : T
  transition_idx : Nat
deriving DecidableEq

/-- `State` from `fsm.hpp`.  The `on_enter` / `on_exit` callbacks are
externally supplied opaque procedures; the engine only decides whether to
invoke them, so they are modelled by presence flags and their invocations by
`Event`s. -/
structure State (T A : Type) where
  name : T
  entity_id : Nat
  transitions : List (Transition T A)
  on_enter : Bool
  on_exit : Bool
  cache : Option (TransitionCache T)

variable {T A : Type}

/-- `State::try_cached_transition`: probe the cache.  If a cache entry is
present and its guard evaluates true, report a hit and leave the state
untouched; otherwise clear the cache (`cache.reset()`) and report a miss.
The returned list holds the indices of the guards that were evaluated.
A cached index outside the transition list would be undefined behaviour in
the C++ (`transitions[idx]` out of range); it is unreachable under the cache
invariant and modelled as a miss. -/
def State.try_cached_transition (s : State T A) (eid : Nat) (args : A) :
    Bool × State T A × List Nat :=
  match s.cache with
  | some c =>
    match s.transitions[c.transition_idx]? with
    | some t =>
      if t.condition eid args then (true, s, [c.transition_idx])
      else (false, { s with cache := none }, [c.transition_idx])
    | none => (false, { s with cache := none }, [])
  | none => (false, s, [])

/-- `State::update_cache`. -/
def State.update_cache (s : State T A) (idx : Nat) (target : T) : State T A :=
  { s with cache := some ⟨target, idx⟩ }

/-- `State::set_callbacks`: each flag records that a non-null callback was
passed for the corresponding slot; a passed callback replaces only its own
slot. -/
def State.set_callbacks (s : State T A) (enter ex : Bool) : State T A :=
  let s1 := if enter then { s with on_enter := true } else s
  if ex then { s1 with on_exit := true } else s1

/-- `StateMachine` from `fsm.hpp`: the name-indexed state registry
(`std::unordered_map`, modelled as an association list with unique keys) and
the name of the current state (`nullptr` before the first `add_state`). -/
structure StateMachine (T A : Type) where
  states : List (T × State T A)
  current : Option T

variable [DecidableEq T]

/-- Registry lookup, `states.contains` / `states.at`. -/
def StateMachine.findState (m : StateMachine T A) (n : T) : Option (State T A) :=
  (m.states.find? (fun p => decide (p.1 = n))).map (fun p => p.2)

/-- Store a new value for the state named `n` (mutation through the shared
pointer held in the registry). -/
def StateMachine.setState (m : StateMachine T A) (n : T) (s : State T A) :
    StateMachine T A :=
  { m with states := m.states.map (fun p => if p.1 = n then (n, s) else p) }

/-- `StateMachine::add_state`: return the existing state unchanged if the
name is present, otherwise insert a fresh state; the very first inserted
state becomes the current state. -/
def StateMachine.add_state (m : StateMachine T A) (n : T) (eid : Nat) :
    State T A × StateMachine T A :=
  match m.findState n with
  | some s => (s, m)
  | none =>
    let s : State T A := ⟨n, eid, [], false, false, none⟩
    (s, { states := m.states ++ [(n, s)],
          current := match m.current with | none => some n | some c => some c })

/-- `StateMachine::add_transition`: asserts both endpoints exist, then
appends a transition to the source state's list. -/
def StateMachine.add_transition (m : StateMachine T A) (f t : T)
    (cond : Nat → A → Bool) : Option (StateMachine T A) :=
  match m.findState f, m.findState t with
  | some sf, some _ =>
    some (m.setState f { sf with transitions := sf.transitions ++ [⟨t, cond⟩] })
  | _, _ => none

/-- `StateMachine::set_callback`: asserts the state exists. -/
def StateMachine.set_callback (m : StateMachine T A) (n : T) (enter ex : Bool) :
    Option (StateMachine T A) :=
  match m.findState n with
  | some s => some (m.setState n (s.set_callbacks enter ex))
  | none => none

/-- Events produced by `state->enter()`: fires the `on_enter` callback of the
state named `n` (if set) with that state's entity id.  The pair's first
component records the machine's current state at the time the callback runs:
`enter` is only ever called after `current` has been reassigned to `n`. -/
def StateMachine.enterEvents (m : StateMachine T A) (n : T) : List (T × Event T) :=
  match m.findState n with
  | some s => if s.on_enter then [(n, Event.enter n s.entity_id)] else []
  | none => []

/-- Events produced by `state->exit()` while `n` is still the current
state. -/
def StateMachine.exitEvents (m : StateMachine T A) (n : T) : List (T × Event T) :=
  match m.findState n with
  | some s => if s.on_exit then [(n, Event.exit n s.entity_id)] else []
  | none => []

/-- `StateMachine::handle_transition`: call the current state's `on_exit`,
reassign `current`, then call the new current state's `on_enter`. -/
def StateMachine.handle_transition (m : StateMachine T A) (new_name : T) :
    StateMachine T A × List (T × Event T) :=
  match m.current with
  | some cn =>
    let evs1 := m.exitEvents cn
    let m2 : StateMachine T A := { m with current := some new_name }
    (m2, evs1 ++ m2.enterEvents new_name)
  | none => (m, [])

/-- The full-scan loop of `StateMachine::update`: walk the suffix `ts` of the
current state's transition list (whose first element has index `i`),
evaluating guards in order; on the first guard that holds, record it in the
source state's cache, perform the transition and stop. -/
def StateMachine.scanUpdate (m : StateMachine T A) (cn : T) (eid : Nat)
    (ts : List (Transition T A)) (i : Nat) (args : A) :
    StateMachine T A × List (T × Event T) × List Nat :=
  match ts with
  | [] => (m, [], [])
  | t :: rest =>
    if t.condition eid args then
      let m1 := match m.findState cn with
        | some s => m.setState cn (s.update_cache i t.target)
        | none => m
      let r := m1.handle_transition t.target
      (r.1, r.2, [i])
    else
      let r := m.scanUpdate cn eid rest (i + 1) args
      (r.1, r.2.1, i :: r.2.2)

/-- `StateMachine::update`: asserts a current state; probes the cache and on
a hit transitions to the cached target, otherwise falls through to the full
scan.  Returns the new machine, the callback events and the evaluated guard
indices. -/
def StateMachine.update (m : StateMachine T A) (args : A) :
    Option (StateMachine T A × List (T × Event T) × List Nat) :=
  match m.current with
  | none => none
  | some cn =>
    match m.findState cn with
    | none => none
    | some cur =>
      let pr := cur.try_cached_transition cur.entity_id args
      let m1 := m.setState cn pr.2.1
      if pr.1 then
        match pr.2.1.cache with
        | some c =>
          let r := m1.handle_transition c.target
          some (r.1, r.2, pr.2.2)
        | none => none
      else
        let r := m1.scanUpdate cn pr.2.1.entity_id pr.2.1.transitions 0 args
        some (r.1, r.2.1, pr.2.2 ++ r.2.2)

/-- The full-scan loop of `StateMachine::can_transition_to`: only transitions
whose target equals the queried state have their guard evaluated (the `&&`
short-circuits on the pointer comparison); the first such match is recorded
in the cache. -/
def StateMachine.scanCan (m : StateMachine T A) (cn : T) (eid : Nat)
    (ts : List (Transition T A)) (i : Nat) (tgt : T) (args : A) :
    Bool × StateMachine T A × List Nat :=
  match ts with
  | [] => (false, m, [])
  | t :: rest =>
    if t.target = tgt then
      if t.condition eid args then
        let m1 := match m.findState cn with
          | some s => m.setState cn (s.update_cache i tgt)
          | none => m
        (true, m1, [i])
      else
        let r := m.scanCan cn eid rest (i + 1) tgt args
        (r.1, r.2.1, i :: r.2.2)
    else
      m.scanCan cn eid rest (i + 1) tgt args

/-- `StateMachine::can_transition_to`: asserts a current state and that the
queried state exists.  Probes the cache exactly as `update` does; on a hit it
reports whether the cached target is the queried one, otherwise it runs the
target-filtered scan.  It never calls `handle_transition`, so its event list
is empty by construction. -/
def StateMachine.can_transition_to (m : StateMachine T A) (tgt : T) (args : A) :
    Option (Bool × StateMachine T A × List (T × Event T) × List Nat) :=
  match m.current with
  | none => none
  | some cn =>
    if (m.findState tgt).isSome then
      match m.findState cn with
      | none => none
      | some cur =>
        let pr := cur.try_cached_transition cur.entity_id args
        let m1 := m.setState cn pr.2.1
        if pr.1 then
          match pr.2.1.cache with
          | some c => some (decide (c.target = tgt), m1, [], pr.2.2)
          | none => none
        else
          let r := m1.scanCan cn pr.2.1.entity_id pr.2.1.transitions 0 tgt args
          some (r.1, r.2.1, [], pr.2.2 ++ r.2.2)
    else none

/-- `StateMachine::start`: asserts a current state and fires its `on_enter`
callback. -/
def StateMachine.start (m : StateMachine T A) : Option (List (T × Event T)) :=
  match m.current with
  | none => none
  | some cn => some (m.enterEvents cn)

/-- `StateMachine::get_current_state`: asserts a current state and returns
its name. -/
def StateMachine.get_current_state (m : StateMachine T A) : Option T :=
  (m.current.bind (fun cn => m.findState cn)).map (fun s => s.name)

/-- `StateMachine::has_state`. -/
def StateMachine.has_state (m : StateMachine T A) (n : T) : Bool :=
  (m.findState n).isSome

/-! Total wrappers and observers.  A failed assertion halts the C++ program,
so for reachability purposes an operation that fails its precondition is
modelled as leaving the machine unchanged. -/

/-- Machine after `add_state` (discarding the returned state reference). -/
def StateMachine.addStateM (m : StateMachine T A) (n : T) (eid : Nat) :
    StateMachine T A :=
  (m.add_state n eid).2

/-- Machine after `add_transition`. -/
def StateMachine.addTransitionM (m : StateMachine T A) (f t : T)
    (cond : Nat → A → Bool) : StateMachine T A :=
  (m.add_transition f t cond).getD m

/-- Machine after `set_callback`. -/
def StateMachine.setCallbackM (m : StateMachine T A) (n : T) (enter ex : Bool) :
    StateMachine T A :=
  (m.set_callback n enter ex).getD m

/-- Machine after `update`. -/
def StateMachine.updateM (m : StateMachine T A) (args : A) : StateMachine T A :=
  match m.update args with
  | some r => r.1
  | none => m

/-- Callback events fired by `update`. -/
def StateMachine.updateEvents (m : StateMachine T A) (args : A) :
    List (T × Event T) :=
  match m.update args with
  | some r => r.2.1
  | none => []

/-- Indices of the guards `update` evaluated, in evaluation order. -/
def StateMachine.updateTrace (m : StateMachine T A) (args : A) : List Nat :=
  match m.update args with
  | some r => r.2.2
  | none => []

/-- Machine after `can_transition_to`. -/
def StateMachine.canM (m : StateMachine T A) (tgt : T) (args : A) :
    StateMachine T A :=
  match m.can_transition_to tgt args with
  | some r => r.2.1
  | none => m

/-- Boolean result of `can_transition_to`. -/
def StateMachine.canB (m : StateMachine T A) (tgt : T) (args : A) : Bool :=
  match m.can_transition_to tgt args with
  | some r => r.1
  | none => false

/-- Callback events fired by `can_transition_to` (none, by the source code's
structure: it never calls `handle_transition`, `enter` or `exit`). -/
def StateMachine.canEvents (m : StateMachine T A) (tgt : T) (args : A) :
    List (T × Event T) :=
  match m.can_transition_to tgt args with
  | some r => r.2.2.1
  | none => []

/-- Indices of the guards `can_transition_to` evaluated. -/
def StateMachine.canTrace (m : StateMachine T A) (tgt : T) (args : A) :
    List Nat :=
  match m.can_transition_to tgt args with
  | some r => r.2.2.2
  | none => []

/-- Whether `update` / `can_transition_to` on `m` with `args` would take the
cached path (the cache probe hits). -/
def StateMachine.probeHit (m : StateMachine T A) (args : A) : Bool :=
  match m.current with
  | none => false
  | some cn =>
    match m.findState cn with
    | none => false
    | some cur => (cur.try_cached_transition cur.entity_id args).1

/-- The cache slot of the state named `n`. -/
def StateMachine.cacheOf (m : StateMachine T A) (n : T) :
    Option (TransitionCache T) :=
  (m.findState n).bind (fun s => s.cache)

/-- Result of evaluating the guard of transition `j` of state `n` with that
state's entity id. -/
def StateMachine.guardAt (m : StateMachine T A) (n : T) (j : Nat) (args : A) :
    Option Bool :=
  (m.findState n).bind (fun s =>
    (s.transitions[j]?).map (fun t => t.condition s.entity_id args))

/-- Target of transition `j` of state `n`. -/
def StateMachine.targetAt (m : StateMachine T A) (n : T) (j : Nat) : Option T :=
  (m.findState n).bind (fun s => (s.transitions[j]?).map (fun t => t.target))

/-- Number of transitions of state `n`. -/
def StateMachine.transCount (m : StateMachine T A) (n : T) : Option Nat :=
  (m.findState n).map (fun s => s.transitions.length)

/-- The machine with the cache of state `n` cleared, other fields intact. -/
def StateMachine.clearCacheAt (m : StateMachine T A) (n : T) : StateMachine T A :=
  match m.findState n with
  | some s => m.setState n { s with cache := none }
  | none => m

/-- Machines reachable from a freshly constructed `StateMachine` by the
public API. -/
inductive Reachable : StateMachine T A → Prop where
  | empty : Reachable ⟨[], none⟩
  | add_state {m : StateMachine T A} (n : T) (eid : Nat) :
      Reachable m → Reachable (m.addStateM n eid)
  | add_transition {m : StateMachine T A} (f t : T) (cond : Nat → A → Bool) :
      Reachable m → Reachable (m.addTransitionM f t cond)
  | set_callback {m : StateMachine T A} (n : T) (enter ex : Bool) :
      Reachable m → Reachable (m.setCallbackM n enter ex)
  | update {m : StateMachine T A} (args : A) :
      Reachable m → Reachable (m.updateM args)
  | can {m : StateMachine T A} (tgt : T) (args : A) :
      Reachable m → Reachable (m.canM tgt args)

/-- Cache consistency of a single state: an occupied cache slot holds a valid
index into the state's own transition list and the target stored at that
index. -/
def State.cacheOKb (s : State T A) : Bool :=
  match s.cache with
  | none => true
  | some c =>
    match s.transitions[c.transition_idx]? with
    | some t => decide (c.transition_idx < s.transitions.length) && decide (t.target = c.target)
    | none => false

/-- Cache consistency of every state in the machine. -/
def CacheOK (m : StateMachine T A) : Prop :=
  ∀ p ∈ m.states, p.2.cacheOKb = true

instance (m : StateMachine T A) : Decidable (CacheOK m) :=
  decidable_of_iff (∀ p ∈ m.states, p.2.cacheOKb = true) Iff.rfl

/-! Basic lemmas about the registry operations. -/

theorem find?_setKey_self (l : List (T × State T A)) (n : T) (s : State T A)
    (h : (l.find? (fun p => decide (p.1 = n))).isSome = true) :
    (l.map (fun p => if p.1 = n then (n, s) else p)).find?
      (fun p => decide (p.1 = n)) = some (n, s) := by
  induction l with
  | nil => simp at h
  | cons p rest ih =>
    simp only [List.map_cons]
    by_cases hp : p.1 = n
    · rw [if_pos hp, List.find?_cons_of_pos _ (by simp)]
    · rw [List.find?_cons_of_neg _ (by simp [hp])] at h
      rw [if_neg hp, List.find?_cons_of_neg _ (by simp [hp])]
      exact ih h

theorem find?_setKey_ne (l : List (T × State T A)) (n n' : T) (s : State T A)
    (h : n' ≠ n) :
    (l.map (fun p => if p.1 = n then (n, s) else p)).find?
      (fun p => decide (p.1 = n')) = l.find? (fun p => decide (p.1 = n')) := by
  induction l with
  | nil => rfl
  | cons p rest ih =>
    simp only [List.map_cons]
    by_cases hp : p.1 = n
    · have h1 : ¬(n = n') := fun he => h he.symm
      have h2 : ¬(p.1 = n') := fun he => h1 (hp ▸ he)
      rw [if_pos hp, List.find?_cons_of_neg _ (by simpa using h1),
        List.find?_cons_of_neg _ (by simpa using h2)]
      exact ih
    · by_cases hq : p.1 = n'
      · rw [if_neg hp, List.find?_cons_of_pos _ (by simpa using hq),
          List.find?_cons_of_pos _ (by simpa using hq)]
      · rw [if_neg hp, List.find?_cons_of_neg _ (by simpa using hq),
          List.find?_cons_of_neg _ (by simpa using hq)]
        exact ih

theorem findState_setState_self {m : StateMachine T A} {n : T} {s0 : State T A}
    (s : State T A) (h : m.findState n = some s0) :
    (m.setState n s).findState n = some s := by
  have hs : (m.states.find? (fun p => decide (p.1 = n))).isSome = true := by
    unfold StateMachine.findState at h
    cases hf : m.states.find? (fun p => decide (p.1 = n)) with
    | none => rw [hf] at h; simp at h
    | some p => simp [hf]
  unfold StateMachine.findState StateMachine.setState
  rw [find?_setKey_self m.states n s hs]
  rfl

theorem findState_setState_ne (m : StateMachine T A) {n n' : T} (s : State T A)
    (h : n' ≠ n) : (m.setState n s).findState n' = m.findState n' := by
  unfold StateMachine.findState StateMachine.setState
  rw [find?_setKey_ne m.states n n' s h]

theorem setState_eq_of_findState_none {m : StateMachine T A} {n : T}
    (s : State T A) (h : m.findState n = none) : m.setState n s = m := by
  have hf : m.states.find? (fun p => decide (p.1 = n)) = none := by
    unfold StateMachine.findState at h
    cases hf : m.states.find? (fun p => decide (p.1 = n)) with
    | none => rfl
    | some p => rw [hf] at h; simp at h
  have hall := List.find?_eq_none.mp hf
  unfold StateMachine.setState
  have : m.states.map (fun p => if p.1 = n then (n, s) else p) = m.states := by
    rw [List.map_congr_left (g := id) (fun p hp => by
      have := hall p hp
      simp at this
      simp [this])]
    exact List.map_id m.states
  rw [this]

theorem setState_current (m : StateMachine T A) (n : T) (s : State T A) :
    (m.setState n s).current = m.current := rfl

theorem findState_mem {m : StateMachine T A} {n : T} {s : State T A}
    (h : m.findState n = some s) : (n, s) ∈ m.states := by
  unfold StateMachine.findState at h
  cases hf : m.states.find? (fun p => decide (p.1 = n)) with
  | none => rw [hf] at h; simp at h
  | some p =>
    rw [hf] at h
    have hp := List.find?_some hf
    have hmem := List.mem_of_find?_eq_some hf
    simp at h hp
    have : p = (n, s) := by
      cases p with
      | mk a b => simp at hp h ⊢; exact ⟨hp, h⟩
    rwa [this] at hmem

/-! Lemmas about `handle_transition`. -/

theorem handle_transition_states (m : StateMachine T A) (n : T) :
    (m.handle_transition n).1.states = m.states := by
  unfold StateMachine.handle_transition
  cases m.current <;> rfl

theorem handle_transition_current {m : StateMachine T A} {cn : T} (n : T)
    (h : m.current = some cn) : (m.handle_transition n).1.current = some n := by
  unfold StateMachine.handle_transition
  rw [h]

theorem handle_transition_machine {m : StateMachine T A} {cn : T} (n : T)
    (h : m.current = some cn) :
    (m.handle_transition n).1 = { m with current := some n } := by
  unfold StateMachine.handle_transition
  rw [h]

theorem handle_transition_events {m : StateMachine T A} {cn : T} (n : T)
    (h : m.current = some cn) :
    (m.handle_transition n).2 =
      m.exitEvents cn ++ ({ m with current := some n } : StateMachine T A).enterEvents n := by
  unfold StateMachine.handle_transition
  rw [h]

/-! Lemmas about the cache probe. -/

omit [DecidableEq T] in
theorem try_cached_of_cache_none {s : State T A} (eid : Nat) (args : A)
    (hc : s.cache = none) : s.try_cached_transition eid args = (false, s, []) := by
  simp [State.try_cached_transition, hc]

omit [DecidableEq T] in
theorem try_cached_of_guard_true {s : State T A} {eid : Nat} {args : A}
    {c : TransitionCache T} {t : Transition T A} (hc : s.cache = some c)
    (ht : s.transitions[c.transition_idx]? = some t)
    (hg : t.condition eid args = true) :
    s.try_cached_transition eid args = (true, s, [c.transition_idx]) := by
  simp [State.try_cached_transition, hc, ht, hg]

omit [DecidableEq T] in
theorem try_cached_of_guard_false {s : State T A} {eid : Nat} {args : A}
    {c : TransitionCache T} {t : Transition T A} (hc : s.cache = some c)
    (ht : s.transitions[c.transition_idx]? = some t)
    (hg : t.condition eid args = false) :
    s.try_cached_transition eid args =
      (false, { s with cache := none }, [c.transition_idx]) := by
  simp [State.try_cached_transition, hc, ht, hg]

omit [DecidableEq T] in
theorem try_cached_of_oob {s : State T A} (eid : Nat) (args : A)
    {c : TransitionCache T} (hc : s.cache = some c)
    (ht : s.transitions[c.transition_idx]? = none) :
    s.try_cached_transition eid args = (false, { s with cache := none }, []) := by
  simp [State.try_cached_transition, hc, ht]

omit [DecidableEq T] in
theorem try_cached_hit {s : State T A} {eid : Nat} {args : A}
    (h : (s.try_cached_transition eid args).1 = true) :
    (s.try_cached_transition eid args).2.1 = s ∧
    ∃ c t, s.cache = some c ∧ s.transitions[c.transition_idx]? = some t ∧
      t.condition eid args = true ∧
      (s.try_cached_transition eid args).2.2 = [c.transition_idx] := by
  cases hc : s.cache with
  | none => rw [try_cached_of_cache_none eid args hc] at h; simp at h
  | some c =>
    cases ht : s.transitions[c.transition_idx]? with
    | none => rw [try_cached_of_oob eid args hc ht] at h; simp at h
    | some t =>
      cases hg : t.condition eid args with
      | false => rw [try_cached_of_guard_false hc ht hg] at h; simp at h
      | true =>
        rw [try_cached_of_guard_true hc ht hg]
        exact ⟨rfl, c, t, rfl, ht, hg, rfl⟩

omit [DecidableEq T] in
theorem try_cached_miss {s : State T A} {eid : Nat} {args : A}
    (h : (s.try_cached_transition eid args).1 = false) :
    (s.try_cached_transition eid args).2.1 = { s with cache := none } := by
  cases hc : s.cache with
  | none =>
    rw [try_cached_of_cache_none eid args hc]
    cases s
    simp_all
  | some c =>
    cases ht : s.transitions[c.transition_idx]? with
    | none => rw [try_cached_of_oob eid args hc ht]
    | some t =>
      cases hg : t.condition eid args with
      | false => rw [try_cached_of_guard_false hc ht hg]
      | true => rw [try_cached_of_guard_true hc ht hg] at h; simp at h

/-! Congruence of the lookup-only observers in the `states` field. -/

theorem findState_states_congr {m m' : StateMachine T A}
    (h : m'.states = m.states) (n : T) : m'.findState n = m.findState n := by
  unfold StateMachine.findState
  rw [h]

theorem exitEvents_states_congr {m m' : StateMachine T A}
    (h : m'.states = m.states) (n : T) : m'.exitEvents n = m.exitEvents n := by
  unfold StateMachine.exitEvents
  rw [findState_states_congr h]

/-! Equation lemmas for the full-scan loop of `update`. -/

theorem scanUpdate_nil (m : StateMachine T A) (cn : T) (eid : Nat) (i : Nat)
    (args : A) : m.scanUpdate cn eid [] i args = (m, [], []) := rfl

theorem scanUpdate_cons_true {m : StateMachine T A} {cn : T} {eid : Nat}
    {t : Transition T A} {args : A} {s0 : State T A} (rest : List (Transition T A))
    (i : Nat) (hg : t.condition eid args = true) (hf : m.findState cn = some s0) :
    m.scanUpdate cn eid (t :: rest) i args =
      (((m.setState cn (s0.update_cache i t.target)).handle_transition t.target).1,
       ((m.setState cn (s0.update_cache i t.target)).handle_transition t.target).2,
       [i]) := by
  simp [StateMachine.scanUpdate, hg, hf]

theorem scanUpdate_cons_false {m : StateMachine T A} {cn : T} {eid : Nat}
    {t : Transition T A} {args : A} (rest : List (Transition T A)) (i : Nat)
    (hg : t.condition eid args = false) :
    m.scanUpdate cn eid (t :: rest) i args =
      ((m.scanUpdate cn eid rest (i + 1) args).1,
       (m.scanUpdate cn eid rest (i + 1) args).2.1,
       i :: (m.scanUpdate cn eid rest (i + 1) args).2.2) := by
  simp [StateMachine.scanUpdate, hg]

/-- If no guard in the scanned suffix holds, the scan changes nothing and
fires no callback. -/
theorem scanUpdate_no_match (m : StateMachine T A) (cn : T) (eid : Nat)
    (ts : List (Transition T A)) (i : Nat) (args : A)
    (h : ∀ t ∈ ts, t.condition eid args = false) :
    (m.scanUpdate cn eid ts i args).1 = m ∧
    (m.scanUpdate cn eid ts i args).2.1 = [] := by
  induction ts generalizing i with
  | nil => exact ⟨rfl, rfl⟩
  | cons t rest ih =>
    rw [scanUpdate_cons_false rest i (h t (by simp))]
    exact ih (i + 1) (fun t' ht' => h t' (by simp [ht']))

/-- The scan stops at the first transition whose guard holds, records it in
the source state's cache and performs the transition. -/
theorem scanUpdate_first_match {m : StateMachine T A} {cn : T} {eid : Nat}
    {ts : List (Transition T A)} {args : A} {s0 : State T A} {k : Nat}
    {t : Transition T A} (i : Nat) (hf : m.findState cn = some s0)
    (hk : ts[k]? = some t) (hg : t.condition eid args = true)
    (hprev : ∀ j (t' : Transition T A), j < k → ts[j]? = some t' →
      t'.condition eid args = false) :
    (m.scanUpdate cn eid ts i args).1 =
      ((m.setState cn (s0.update_cache (i + k) t.target)).handle_transition t.target).1 ∧
    (m.scanUpdate cn eid ts i args).2.1 =
      ((m.setState cn (s0.update_cache (i + k) t.target)).handle_transition t.target).2 := by
  induction ts generalizing i k with
  | nil => simp at hk
  | cons t0 rest ih =>
    cases k with
    | zero =>
      rw [List.getElem?_cons_zero] at hk
      cases hk
      rw [scanUpdate_cons_true rest i hg hf]
      exact ⟨rfl, rfl⟩
    | succ k' =>
      have h0 : t0.condition eid args = false :=
        hprev 0 t0 (Nat.succ_pos _) List.getElem?_cons_zero
      rw [scanUpdate_cons_false rest i h0]
      rw [List.getElem?_cons_succ] at hk
      have hprev' : ∀ j (t' : Transition T A), j < k' → rest[j]? = some t' →
          t'.condition eid args = false := by
        intro j t' hj hjt
        exact hprev (j + 1) t' (Nat.succ_lt_succ hj) (by simpa using hjt)
      have harith : i + 1 + k' = i + (k' + 1) := by omega
      have := ih (i + 1) (k := k') hk hprev'
      rwa [harith] at this

/-- Every run of the scan either matches nothing (machine unchanged, no
callbacks) or hands over to `handle_transition` from a machine with the same
current state and the same registry keys. -/
theorem scanUpdate_cases (m : StateMachine T A) (cn : T) (eid : Nat)
    (ts : List (Transition T A)) (i : Nat) (args : A) :
    ((m.scanUpdate cn eid ts i args).1 = m ∧
     (m.scanUpdate cn eid ts i args).2.1 = []) ∨
    (∃ (B : T) (m1 : StateMachine T A), m1.current = m.current ∧
      (m.scanUpdate cn eid ts i args).1 = (m1.handle_transition B).1 ∧
      (m.scanUpdate cn eid ts i args).2.1 = (m1.handle_transition B).2) := by
  induction ts generalizing i with
  | nil => exact Or.inl ⟨rfl, rfl⟩
  | cons t rest ih =>
    cases hg : t.condition eid args with
    | false =>
      rw [scanUpdate_cons_false rest i hg]
      rcases ih (i + 1) with ⟨h1, h2⟩ | ⟨B, m1, hc, h1, h2⟩
      · exact Or.inl ⟨h1, h2⟩
      · exact Or.inr ⟨B, m1, hc, h1, h2⟩
    | true =>
      cases hf : m.findState cn with
      | some s0 =>
        rw [scanUpdate_cons_true rest i hg hf]
        exact Or.inr ⟨t.target, m.setState cn (s0.update_cache i t.target), rfl,
          rfl, rfl⟩
      | none =>
        refine Or.inr ⟨t.target, m, rfl, ?_, ?_⟩ <;>
          simp [StateMachine.scanUpdate, hg, hf]

/-! Equation lemmas for the target-filtered scan of `can_transition_to`. -/

theorem scanCan_nil (m : StateMachine T A) (cn : T) (eid : Nat) (i : Nat)
    (tgt : T) (args : A) : m.scanCan cn eid [] i tgt args = (false, m, []) := rfl

theorem scanCan_cons_skip {m : StateMachine T A} {cn : T} {eid : Nat}
    {t : Transition T A} {tgt : T} {args : A} (rest : List (Transition T A))
    (i : Nat) (ht : ¬t.target = tgt) :
    m.scanCan cn eid (t :: rest) i tgt args =
      m.scanCan cn eid rest (i + 1) tgt args := by
  simp [StateMachine.scanCan, ht]

theorem scanCan_cons_hit {m : StateMachine T A} {cn : T} {eid : Nat}
    {t : Transition T A} {tgt : T} {args : A} {s0 : State T A}
    (rest : List (Transition T A)) (i : Nat) (ht : t.target = tgt)
    (hg : t.condition eid args = true) (hf : m.findState cn = some s0) :
    m.scanCan cn eid (t :: rest) i tgt args =
      (true, m.setState cn (s0.update_cache i tgt), [i]) := by
  simp [StateMachine.scanCan, ht, hg, hf]

theorem scanCan_cons_miss {m : StateMachine T A} {cn : T} {eid : Nat}
    {t : Transition T A} {tgt : T} {args : A} (rest : List (Transition T A))
    (i : Nat) (ht : t.target = tgt) (hg : t.condition eid args = false) :
    m.scanCan cn eid (t :: rest) i tgt args =
      ((m.scanCan cn eid rest (i + 1) tgt args).1,
       (m.scanCan cn eid rest (i + 1) tgt args).2.1,
       i :: (m.scanCan cn eid rest (i + 1) tgt args).2.2) := by
  simp [StateMachine.scanCan, ht, hg]

/-- The filtered scan never touches the current pointer and mutates at most
the cache slot of the scanned state. -/
theorem scanCan_frame (eid : Nat) (ts : List (Transition T A)) (i : Nat)
    (tgt : T) (args : A) {m : StateMachine T A} {cn : T} {s0 : State T A}
    (hf : m.findState cn = some s0) :
    (m.scanCan cn eid ts i tgt args).2.1.current = m.current ∧
    (∀ n, n ≠ cn → (m.scanCan cn eid ts i tgt args).2.1.findState n =
      m.findState n) ∧
    ∃ co, (m.scanCan cn eid ts i tgt args).2.1.findState cn =
      some { s0 with cache := co } := by
  induction ts generalizing i with
  | nil =>
    refine ⟨rfl, fun n _ => rfl, s0.cache, ?_⟩
    show m.findState cn = _
    rw [hf]
  | cons t rest ih =>
    by_cases ht : t.target = tgt
    · cases hg : t.condition eid args with
      | true =>
        rw [scanCan_cons_hit rest i ht hg hf]
        exact ⟨rfl, fun n hn => findState_setState_ne m _ hn,
          some ⟨tgt, i⟩, findState_setState_self _ hf⟩
      | false =>
        rw [scanCan_cons_miss rest i ht hg]
        exact ih (i + 1)
    · rw [scanCan_cons_skip rest i ht]
      exact ih (i + 1)

/-- When the filtered scan reports true, it has found a transition of the
scanned state whose target is the queried one and whose guard holds, and it
has recorded exactly that transition in the state's cache. -/
theorem scanCan_true (eid : Nat) (ts : List (Transition T A)) (i : Nat)
    (tgt : T) (args : A) {m : StateMachine T A} {cn : T} {s0 : State T A}
    (hf : m.findState cn = some s0)
    (hts : ∀ k, ts[k]? = s0.transitions[i + k]?)
    (hb : (m.scanCan cn eid ts i tgt args).1 = true) :
    ∃ k t, s0.transitions[k]? = some t ∧ t.target = tgt ∧
      t.condition eid args = true ∧
      (m.scanCan cn eid ts i tgt args).2.1.findState cn =
        some (s0.update_cache k tgt) := by
  induction ts generalizing i with
  | nil => rw [scanCan_nil] at hb; simp at hb
  | cons t0 rest ih =>
    have hts' : ∀ k, rest[k]? = s0.transitions[(i + 1) + k]? := by
      intro k
      have := hts (k + 1)
      rw [List.getElem?_cons_succ] at this
      rwa [show i + (k + 1) = i + 1 + k by omega] at this
    by_cases ht : t0.target = tgt
    · cases hg : t0.condition eid args with
      | true =>
        rw [scanCan_cons_hit rest i ht hg hf] at hb ⊢
        refine ⟨i, t0, ?_, ht, hg, findState_setState_self _ hf⟩
        have := hts 0
        rw [List.getElem?_cons_zero] at this
        rw [show i + 0 = i by omega] at this
        exact this.symm
      | false =>
        rw [scanCan_cons_miss rest i ht hg] at hb ⊢
        exact ih (i + 1) hts' hb
    · rw [scanCan_cons_skip rest i ht] at hb ⊢
      exact ih (i + 1) hts' hb

/-- The boolean result of the filtered scan is the first-index search over
target-matching transitions, and a found index is exactly what lands in the
cache. -/
theorem scanCan_findIdx (eid : Nat) (ts : List (Transition T A)) (i : Nat)
    (tgt : T) (args : A) {m : StateMachine T A} {cn : T} {s0 : State T A}
    (hf : m.findState cn = some s0) :
    (m.scanCan cn eid ts i tgt args).1 =
      (ts.findIdx? (fun t => decide (t.target = tgt) && t.condition eid args) i).isSome ∧
    ∀ k, ts.findIdx? (fun t => decide (t.target = tgt) && t.condition eid args) i =
        some k →
      (m.scanCan cn eid ts i tgt args).2.1.findState cn =
        some (s0.update_cache k tgt) := by
  induction ts generalizing i with
  | nil => exact ⟨rfl, by simp [List.findIdx?_nil]⟩
  | cons t0 rest ih =>
    by_cases ht : t0.target = tgt
    · cases hg : t0.condition eid args with
      | true =>
        rw [scanCan_cons_hit rest i ht hg hf, List.findIdx?_cons]
        constructor
        · simp [ht, hg]
        · intro k hk
          simp [ht, hg] at hk
          rw [← hk]
          exact findState_setState_self _ hf
      | false =>
        rw [scanCan_cons_miss rest i ht hg, List.findIdx?_cons]
        simpa [ht, hg] using ih (i + 1)
    · rw [scanCan_cons_skip rest i ht, List.findIdx?_cons]
      simpa [ht] using ih (i + 1)

/-- Every guard the filtered scan evaluates belongs to a transition whose
target is the queried state. -/
theorem scanCan_trace_targets (eid : Nat) (ts : List (Transition T A))
    (i : Nat) (tgt : T) (args : A) {m : StateMachine T A} {cn : T}
    {s0 : State T A} (hts : ∀ k, ts[k]? = s0.transitions[i + k]?) :
    ∀ j ∈ (m.scanCan cn eid ts i tgt args).2.2,
      ∃ t, s0.transitions[j]? = some t ∧ t.target = tgt := by
  induction ts generalizing i with
  | nil => intro j hj; rw [scanCan_nil] at hj; simp at hj
  | cons t0 rest ih =>
    have hts' : ∀ k, rest[k]? = s0.transitions[(i + 1) + k]? := by
      intro k
      have := hts (k + 1)
      rw [List.getElem?_cons_succ] at this
      rwa [show i + (k + 1) = i + 1 + k by omega] at this
    have hhead : s0.transitions[i]? = some t0 := by
      have := hts 0
      rw [List.getElem?_cons_zero] at this
      rw [show i + 0 = i by omega] at this
      exact this.symm
    intro j hj
    by_cases ht : t0.target = tgt
    · cases hg : t0.condition eid args with
      | true =>
        cases hfm : m.findState cn with
        | some s1 =>
          rw [scanCan_cons_hit rest i ht hg hfm] at hj
          simp at hj
          exact hj ▸ ⟨t0, hhead, ht⟩
        | none =>
          rw [show m.scanCan cn eid (t0 :: rest) i tgt args = (true, m, [i]) by
            simp [StateMachine.scanCan, ht, hg, hfm]] at hj
          simp at hj
          exact hj ▸ ⟨t0, hhead, ht⟩
      | false =>
        rw [scanCan_cons_miss rest i ht hg] at hj
        simp at hj
        rcases hj with hj | hj
        · exact hj ▸ ⟨t0, hhead, ht⟩
        · exact ih (i + 1) hts' j hj
    · rw [scanCan_cons_skip rest i ht] at hj
      exact ih (i + 1) hts' j hj

/-- Specification-level description of the scan of `can_transition_to`: the
position of the first transition of state `cn` whose target equals `tgt` and
whose guard holds for `args`, ignoring the guards of all other
transitions. -/
def StateMachine.firstTargetIdx (m : StateMachine T A) (cn tgt : T) (args : A) :
    Option Nat :=
  match m.findState cn with
  | some s =>
    s.transitions.findIdx? (fun t => decide (t.target = tgt) && t.condition s.entity_id args)
  | none => none

/-! Path equations for `update` and `can_transition_to`. -/

theorem update_eq_of_no_current {m : StateMachine T A} {args : A}
    (h : m.current = none) : m.update args = none := by
  simp [StateMachine.update, h]

theorem update_eq_of_no_state {m : StateMachine T A} {cn : T} (args : A)
    (h1 : m.current = some cn) (h2 : m.findState cn = none) :
    m.update args = none := by
  simp [StateMachine.update, h1, h2]

theorem update_eq_of_hit {m : StateMachine T A} {cn : T} {args : A}
    {cur : State T A} {c : TransitionCache T} {tr : List Nat}
    (h1 : m.current = some cn) (h2 : m.findState cn = some cur)
    (hc : cur.cache = some c)
    (hpr : cur.try_cached_transition cur.entity_id args = (true, cur, tr)) :
    m.update args =
      some (((m.setState cn cur).handle_transition c.target).1,
            ((m.setState cn cur).handle_transition c.target).2, tr) := by
  simp [StateMachine.update, h1, h2, hpr, hc]

theorem update_eq_of_miss {m : StateMachine T A} {cn : T} {args : A}
    {cur cur1 : State T A} {tr : List Nat}
    (h1 : m.current = some cn) (h2 : m.findState cn = some cur)
    (hpr : cur.try_cached_transition cur.entity_id args = (false, cur1, tr)) :
    m.update args =
      some (((m.setState cn cur1).scanUpdate cn cur1.entity_id cur1.transitions 0 args).1,
            ((m.setState cn cur1).scanUpdate cn cur1.entity_id cur1.transitions 0 args).2.1,
            tr ++ ((m.setState cn cur1).scanUpdate cn cur1.entity_id cur1.transitions 0 args).2.2) := by
  simp [StateMachine.update, h1, h2, hpr]

theorem can_eq_of_hit {m : StateMachine T A} {cn tgt : T} {args : A}
    {cur : State T A} {c : TransitionCache T} {tr : List Nat}
    (h1 : m.current = some cn) (h2 : m.findState cn = some cur)
    (h3 : (m.findState tgt).isSome = true) (hc : cur.cache = some c)
    (hpr : cur.try_cached_transition cur.entity_id args = (true, cur, tr)) :
    m.can_transition_to tgt args =
      some (decide (c.target = tgt), m.setState cn cur, [], tr) := by
  simp [StateMachine.can_transition_to, h1, h2, h3, hpr, hc]

theorem can_eq_of_miss {m : StateMachine T A} {cn tgt : T} {args : A}
    {cur cur1 : State T A} {tr : List Nat}
    (h1 : m.current = some cn) (h2 : m.findState cn = some cur)
    (h3 : (m.findState tgt).isSome = true)
    (hpr : cur.try_cached_transition cur.entity_id args = (false, cur1, tr)) :
    m.can_transition_to tgt args =
      some (((m.setState cn cur1).scanCan cn cur1.entity_id cur1.transitions 0 tgt args).1,
            ((m.setState cn cur1).scanCan cn cur1.entity_id cur1.transitions 0 tgt args).2.1,
            [],
            tr ++ ((m.setState cn cur1).scanCan cn cur1.entity_id cur1.transitions 0 tgt args).2.2) := by
  simp [StateMachine.can_transition_to, h1, h2, h3, hpr]

/-! Preservation of per-state cache consistency. -/

theorem cacheOKb_clear (s : State T A) : State.cacheOKb { s with cache := none } = true := rfl

theorem cacheOKb_update_cache {s : State T A} {i : Nat} {t : Transition T A}
    {tgt : T} (h : s.transitions[i]? = some t)
    (ht : t.target = tgt) : (s.update_cache i tgt).cacheOKb = true := by
  have hlt : i < s.transitions.length := (List.getElem?_eq_some.mp h).1
  simp [State.update_cache, State.cacheOKb, h, ht, hlt]

theorem cacheOKb_probe {s : State T A} {eid : Nat} {args : A}
    (h : s.cacheOKb = true) :
    (s.try_cached_transition eid args).2.1.cacheOKb = true := by
  cases hb : (s.try_cached_transition eid args).1 with
  | true => rw [(try_cached_hit hb).1]; exact h
  | false => rw [try_cached_miss hb]; exact cacheOKb_clear s

theorem cacheOKb_append {s : State T A} {l : List (Transition T A)}
    (h : s.cacheOKb = true) :
    State.cacheOKb { s with transitions := s.transitions ++ l } = true := by
  obtain ⟨nm, eid, ts, oe, ox, ca⟩ := s
  cases ca with
  | none => rfl
  | some c =>
    simp only [State.cacheOKb] at h ⊢
    cases ht : ts[c.transition_idx]? with
    | none => rw [ht] at h; simp at h
    | some t =>
      rw [ht] at h
      simp only [Bool.and_eq_true, decide_eq_true_eq] at h
      have hlt : c.transition_idx < ts.length := h.1
      have h2 : (ts ++ l)[c.transition_idx]? = some t := by
        rw [List.getElem?_append_left hlt]; exact ht
      rw [h2]
      simp only [List.length_append, Bool.and_eq_true, decide_eq_true_eq]
      exact ⟨by omega, h.2⟩

theorem cacheOKb_set_callbacks (s : State T A) (e x : Bool) :
    (s.set_callbacks e x).cacheOKb = s.cacheOKb := by
  cases e <;> cases x <;> rfl

theorem CacheOK.states_eq {m m' : StateMachine T A} (h : m'.states = m.states)
    (hm : CacheOK m) : CacheOK m' := by
  intro p hp
  exact hm p (h ▸ hp)

theorem CacheOK.setState {m : StateMachine T A} {n : T} {s : State T A}
    (hm : CacheOK m) (hs : s.cacheOKb = true) : CacheOK (m.setState n s) := by
  intro p hp
  rcases List.mem_map.mp hp with ⟨q, hq, hpq⟩
  by_cases hk : q.1 = n
  · rw [if_pos hk] at hpq
    rw [← hpq]
    exact hs
  · rw [if_neg hk] at hpq
    rw [← hpq]
    exact hm q hq

theorem CacheOK.of_findState {m : StateMachine T A} {n : T} {s : State T A}
    (hm : CacheOK m) (h : m.findState n = some s) : s.cacheOKb = true :=
  hm (n, s) (findState_mem h)

theorem CacheOK.scanUpdate {m : StateMachine T A} {cn : T} {eid : Nat}
    {ts : List (Transition T A)} {args : A} {s0 : State T A} {i : Nat}
    (hm : CacheOK m) (hf : m.findState cn = some s0)
    (hts : ∀ k, ts[k]? = s0.transitions[i + k]?) :
    CacheOK (m.scanUpdate cn eid ts i args).1 := by
  induction ts generalizing m i with
  | nil => exact hm
  | cons t rest ih =>
    have hhead : s0.transitions[i]? = some t := by
      have := hts 0
      rw [List.getElem?_cons_zero] at this
      rw [show i + 0 = i by omega] at this
      exact this.symm
    have hts' : ∀ k, rest[k]? = s0.transitions[(i + 1) + k]? := by
      intro k
      have := hts (k + 1)
      rw [List.getElem?_cons_succ] at this
      rwa [show i + (k + 1) = i + 1 + k by omega] at this
    cases hg : t.condition eid args with
    | true =>
      rw [scanUpdate_cons_true rest i hg hf]
      refine CacheOK.states_eq (handle_transition_states _ _) ?_
      exact CacheOK.setState hm (cacheOKb_update_cache hhead rfl)
    | false =>
      rw [scanUpdate_cons_false rest i hg]
      exact ih hm hf hts'

theorem CacheOK.scanCan {m : StateMachine T A} {cn : T} {eid : Nat}
    {ts : List (Transition T A)} {tgt : T} {args : A} {s0 : State T A} {i : Nat}
    (hm : CacheOK m) (hf : m.findState cn = some s0)
    (hts : ∀ k, ts[k]? = s0.transitions[i + k]?) :
    CacheOK (m.scanCan cn eid ts i tgt args).2.1 := by
  induction ts generalizing m i with
  | nil => exact hm
  | cons t rest ih =>
    have hhead : s0.transitions[i]? = some t := by
      have := hts 0
      rw [List.getElem?_cons_zero] at this
      rw [show i + 0 = i by omega] at this
      exact this.symm
    have hts' : ∀ k, rest[k]? = s0.transitions[(i + 1) + k]? := by
      intro k
      have := hts (k + 1)
      rw [List.getElem?_cons_succ] at this
      rwa [show i + (k + 1) = i + 1 + k by omega] at this
    by_cases ht : t.target = tgt
    · cases hg : t.condition eid args with
      | true =>
        rw [scanCan_cons_hit rest i ht hg hf]
        exact CacheOK.setState hm (cacheOKb_update_cache hhead ht)
      | false =>
        rw [scanCan_cons_miss rest i ht hg]
        exact ih hm hf hts'
    · rw [scanCan_cons_skip rest i ht]
      exact ih hm hf hts'

theorem CacheOK.addStateM (m : StateMachine T A) (n : T) (eid : Nat)
    (hm : CacheOK m) : CacheOK (m.addStateM n eid) := by
  unfold StateMachine.addStateM StateMachine.add_state
  cases hf : m.findState n with
  | some s => exact hm
  | none =>
    intro p hp
    rcases List.mem_append.mp hp with hp | hp
    · exact hm p hp
    · rw [List.mem_singleton.mp hp]
      rfl

theorem CacheOK.addTransitionM (m : StateMachine T A) (f t : T)
    (cond : Nat → A → Bool) (hm : CacheOK m) :
    CacheOK (m.addTransitionM f t cond) := by
  unfold StateMachine.addTransitionM StateMachine.add_transition
  cases hf : m.findState f with
  | none => exact hm
  | some sf =>
    cases ht : m.findState t with
    | none => exact hm
    | some st =>
      exact CacheOK.setState hm (cacheOKb_append (hm.of_findState hf))

theorem CacheOK.setCallbackM (m : StateMachine T A) (n : T) (e x : Bool)
    (hm : CacheOK m) : CacheOK (m.setCallbackM n e x) := by
  unfold StateMachine.setCallbackM StateMachine.set_callback
  cases hf : m.findState n with
  | none => exact hm
  | some s =>
    refine CacheOK.setState hm ?_
    rw [cacheOKb_set_callbacks]
    exact hm.of_findState hf

theorem CacheOK.updateM (m : StateMachine T A) (args : A) (hm : CacheOK m) :
    CacheOK (m.updateM args) := by
  unfold StateMachine.updateM
  cases h1 : m.current with
  | none => rw [update_eq_of_no_current h1]; exact hm
  | some cn =>
    cases h2 : m.findState cn with
    | none => rw [update_eq_of_no_state args h1 h2]; exact hm
    | some cur =>
      have hok1 : (cur.try_cached_transition cur.entity_id args).2.1.cacheOKb = true :=
        cacheOKb_probe (hm.of_findState h2)
      have hm1 : CacheOK (m.setState cn (cur.try_cached_transition cur.entity_id args).2.1) :=
        CacheOK.setState hm hok1
      cases hb : (cur.try_cached_transition cur.entity_id args).1 with
      | true =>
        obtain ⟨hst, c, t, hc, ht, hg, htr⟩ := try_cached_hit hb
        have hpr : cur.try_cached_transition cur.entity_id args =
            (true, cur, [c.transition_idx]) := try_cached_of_guard_true hc ht hg
        rw [update_eq_of_hit h1 h2 hc hpr]
        refine CacheOK.states_eq (handle_transition_states _ _) ?_
        rw [hpr] at hm1
        exact hm1
      | false =>
        have hst := try_cached_miss hb
        have hpr : cur.try_cached_transition cur.entity_id args =
            (false, (cur.try_cached_transition cur.entity_id args).2.1,
             (cur.try_cached_transition cur.entity_id args).2.2) := by
          rw [← hb]
        rw [update_eq_of_miss h1 h2 hpr]
        refine CacheOK.scanUpdate hm1 (findState_setState_self _ h2) ?_
        intro k
        rw [show (0 : Nat) + k = k by omega]

theorem CacheOK.canM (m : StateMachine T A) (tgt : T) (args : A)
    (hm : CacheOK m) : CacheOK (m.canM tgt args) := by
  unfold StateMachine.canM
  cases h1 : m.current with
  | none =>
    rw [show m.can_transition_to tgt args = none by
      simp [StateMachine.can_transition_to, h1]]
    exact hm
  | some cn =>
    cases h3 : (m.findState tgt).isSome with
    | false =>
      rw [show m.can_transition_to tgt args = none by
        simp [StateMachine.can_transition_to, h1, h3]]
      exact hm
    | true =>
      cases h2 : m.findState cn with
      | none =>
        rw [show m.can_transition_to tgt args = none by
          simp [StateMachine.can_transition_to, h1, h2, h3]]
        exact hm
      | some cur =>
        have hok1 : (cur.try_cached_transition cur.entity_id args).2.1.cacheOKb = true :=
          cacheOKb_probe (hm.of_findState h2)
        have hm1 : CacheOK (m.setState cn (cur.try_cached_transition cur.entity_id args).2.1) :=
          CacheOK.setState hm hok1
        cases hb : (cur.try_cached_transition cur.entity_id args).1 with
        | true =>
          obtain ⟨hst, c, t, hc, ht, hg, htr⟩ := try_cached_hit hb
          have hpr : cur.try_cached_transition cur.entity_id args =
              (true, cur, [c.transition_idx]) := try_cached_of_guard_true hc ht hg
          rw [can_eq_of_hit h1 h2 h3 hc hpr]
          rw [hpr] at hm1
          exact hm1
        | false =>
          have hpr : cur.try_cached_transition cur.entity_id args =
              (false, (cur.try_cached_transition cur.entity_id args).2.1,
               (cur.try_cached_transition cur.entity_id args).2.2) := by
            rw [← hb]
          rw [can_eq_of_miss h1 h2 h3 hpr]
          refine CacheOK.scanCan hm1 (findState_setState_self _ h2) ?_
          intro k
          rw [show (0 : Nat) + k = k by omega]

/-! Unfolding lemmas for the observers. -/

theorem probeHit_eq {m : StateMachine T A} {cn : T} {cur : State T A}
    (h1 : m.current = some cn) (h2 : m.findState cn = some cur) (args : A) :
    m.probeHit args = (cur.try_cached_transition cur.entity_id args).1 := by
  simp [StateMachine.probeHit, h1, h2]

theorem cacheOf_eq {m : StateMachine T A} {cn : T} {cur : State T A}
    (h : m.findState cn = some cur) : m.cacheOf cn = cur.cache := by
  simp [StateMachine.cacheOf, h]

theorem guardAt_eq {m : StateMachine T A} {cn : T} {cur : State T A} {j : Nat}
    {t : Transition T A} (h : m.findState cn = some cur)
    (ht : cur.transitions[j]? = some t) (args : A) :
    m.guardAt cn j args = some (t.condition cur.entity_id args) := by
  simp [StateMachine.guardAt, h, ht]

theorem guardAt_some {m : StateMachine T A} {cn : T} {cur : State T A} {j : Nat}
    {args : A} {b : Bool} (h2 : m.findState cn = some cur)
    (h : m.guardAt cn j args = some b) :
    ∃ t, cur.transitions[j]? = some t ∧ t.condition cur.entity_id args = b := by
  unfold StateMachine.guardAt at h
  rw [h2] at h
  simp only [Option.some_bind] at h
  rcases Option.map_eq_some'.mp h with ⟨t, ht, hb⟩
  exact ⟨t, ht, hb⟩

theorem targetAt_eq {m : StateMachine T A} {cn : T} {cur : State T A} {j : Nat}
    {t : Transition T A} (h : m.findState cn = some cur)
    (ht : cur.transitions[j]? = some t) : m.targetAt cn j = some t.target := by
  simp [StateMachine.targetAt, h, ht]

theorem transCount_some {m : StateMachine T A} {cn : T} {cur : State T A}
    {n : Nat} (h2 : m.findState cn = some cur) (h : m.transCount cn = some n) :
    cur.transitions.length = n := by
  unfold StateMachine.transCount at h
  rw [h2] at h
  simpa using h

theorem cacheOf_some {m : StateMachine T A} {cn : T} {c : TransitionCache T}
    (h : m.cacheOf cn = some c) :
    ∃ cur, m.findState cn = some cur ∧ cur.cache = some c := by
  unfold StateMachine.cacheOf at h
  rcases Option.bind_eq_some.mp h with ⟨cur, hcur, hc⟩
  exact ⟨cur, hcur, hc⟩

theorem updateM_eq {m : StateMachine T A} {args : A}
    {X : StateMachine T A × List (T × Event T) × List Nat}
    (h : m.update args = some X) : m.updateM args = X.1 := by
  unfold StateMachine.updateM
  rw [h]

theorem updateEvents_eq {m : StateMachine T A} {args : A}
    {X : StateMachine T A × List (T × Event T) × List Nat}
    (h : m.update args = some X) : m.updateEvents args = X.2.1 := by
  unfold StateMachine.updateEvents
  rw [h]

theorem updateTrace_eq {m : StateMachine T A} {args : A}
    {X : StateMachine T A × List (T × Event T) × List Nat}
    (h : m.update args = some X) : m.updateTrace args = X.2.2 := by
  unfold StateMachine.updateTrace
  rw [h]

theorem canM_eq {m : StateMachine T A} {tgt : T} {args : A}
    {X : Bool × StateMachine T A × List (T × Event T) × List Nat}
    (h : m.can_transition_to tgt args = some X) : m.canM tgt args = X.2.1 := by
  unfold StateMachine.canM
  rw [h]

theorem canB_eq {m : StateMachine T A} {tgt : T} {args : A}
    {X : Bool × StateMachine T A × List (T × Event T) × List Nat}
    (h : m.can_transition_to tgt args = some X) : m.canB tgt args = X.1 := by
  unfold StateMachine.canB
  rw [h]

theorem canEvents_eq {m : StateMachine T A} {tgt : T} {args : A}
    {X : Bool × StateMachine T A × List (T × Event T) × List Nat}
    (h : m.can_transition_to tgt args = some X) :
    m.canEvents tgt args = X.2.2.1 := by
  unfold StateMachine.canEvents
  rw [h]

theorem canTrace_eq {m : StateMachine T A} {tgt : T} {args : A}
    {X : Bool × StateMachine T A × List (T × Event T) × List Nat}
    (h : m.can_transition_to tgt args = some X) :
    m.canTrace tgt args = X.2.2.2 := by
  unfold StateMachine.canTrace
  rw [h]

/-- Claim C9: cache consistency is an invariant of every reachable machine:
whenever a state's cache slot is occupied, its `transition_idx` is a valid
index into that state's transition list and the cached target equals the
target stored in the transition at that index. -/
theorem claim_C9_cache_invariant {m : StateMachine T A} (h : Reachable m) :
    CacheOK m := by
  induction h with
  | empty => intro p hp; simp at hp
  | add_state n eid _ ih => exact CacheOK.addStateM _ n eid ih
  | add_transition f t cond _ ih => exact CacheOK.addTransitionM _ f t cond ih
  | set_callback n e x _ ih => exact CacheOK.setCallbackM _ n e x ih
  | update args _ ih => exact CacheOK.updateM _ args ih
  | can tgt args _ ih => exact CacheOK.canM _ tgt args ih

/-! Concrete machines used as witnesses and counterexamples.  Each is built
with the public construction API only, so each is reachable. -/

/-- The freshly constructed machine. -/
def exM0 : StateMachine Nat Nat := ⟨[], none⟩

/-- States 0, 1, 2; transitions from 0: to 1 when the argument equals 1
(added first), and to 2 unconditionally (added second). -/
def exA : StateMachine Nat Nat :=
  ((((exM0.addStateM 0 7).addStateM 1 8).addStateM 2 9).addTransitionM 0 1
      (fun _ a => decide (a = 1))).addTransitionM 0 2 (fun _ _ => true)

/-- `exA` after `can_transition_to(2, 0)`, which populates state 0's cache
with the second transition. -/
def exA1 : StateMachine Nat Nat := exA.canM 2 0

/-- States 0, 1, 2; transitions from 0: to 1 and to 2, both with guards that
always hold. -/
def exB : StateMachine Nat Nat :=
  ((((exM0.addStateM 0 7).addStateM 1 8).addStateM 2 9).addTransitionM 0 1
      (fun _ _ => true)).addTransitionM 0 2 (fun _ _ => true)

/-- The walkthrough machine of the specification with speeds scaled to
tenths: IDLE = 0, WALKING = 1, RUNNING = 2; IDLE to WALKING when the speed
exceeds 1 tenth; WALKING to RUNNING when the speed exceeds 50 tenths. -/
def exF : StateMachine Nat Nat :=
  ((((exM0.addStateM 0 1).addStateM 1 1).addStateM 2 1).addTransitionM 0 1
      (fun _ a => decide (1 < a))).addTransitionM 1 2 (fun _ a => decide (50 < a))

/-- `exF` after `update(0.2)`: the machine has moved from IDLE to WALKING. -/
def exF1 : StateMachine Nat Nat := exF.updateM 2

/-- A machine with a self-loop: state 0 with a transition back to 0 when the
argument is positive. -/
def exS : StateMachine Nat Nat :=
  ((exM0.addStateM 0 3).addStateM 1 4).addTransitionM 0 0 (fun _ a => decide (0 < a))

/-- A machine with a single state 0 and no transitions. -/
def exW : StateMachine Nat Nat := exM0.addStateM 0 5

/-- Witness for C9: a concrete reachable machine, built by `add_state`,
`add_transition` and `can_transition_to` (the latter populates a cache
slot), satisfies the cache-consistency invariant. -/
theorem claim_C9_cache_invariant_witness : CacheOK exA1 :=
  claim_C9_cache_invariant
    (Reachable.can 2 0 (Reachable.add_transition 0 2 _
      (Reachable.add_transition 0 1 _
        (Reachable.add_state 2 9 (Reachable.add_state 1 8
          (Reachable.add_state 0 7 Reachable.empty))))))

/-- Claim C8: calling `add_state` with a name that is already present
returns the existing state unchanged and leaves the machine untouched (no
entry is duplicated or modified, and the original entity id is kept even if
a different id is passed); and the very first `add_state` call (machine with
no current state and an unseen name) makes that state the current state. -/
theorem claim_C8_add_state_idempotent (m m2 : StateMachine T A) (n n2 : T)
    (eid eid2 : Nat) (h1 : m.has_state n = true) (h2 : m2.current = none)
    (h3 : m2.has_state n2 = false) :
    (∃ s, m.findState n = some s ∧ m.add_state n eid = (s, m)) ∧
    (m2.add_state n2 eid2).2.current = some n2 := by
  constructor
  · unfold StateMachine.has_state at h1
    cases hf : m.findState n with
    | none => rw [hf] at h1; simp at h1
    | some s =>
      refine ⟨s, rfl, ?_⟩
      unfold StateMachine.add_state
      rw [hf]
  · unfold StateMachine.has_state at h3
    cases hf : m2.findState n2 with
    | some s => rw [hf] at h3; simp at h3
    | none => simp [StateMachine.add_state, hf, h2]

/-- Witness for C8 on concrete machines: `exW` already holds state 0, and
`exM0` is the fresh machine receiving its first state. -/
theorem claim_C8_add_state_idempotent_witness :
    exW.has_state 0 = true ∧ exM0.current = none ∧ exM0.has_state 3 = false ∧
    ((∃ s, exW.findState 0 = some s ∧ exW.add_state 0 99 = (s, exW)) ∧
     (exM0.add_state 3 42).2.current = some 3) :=
  ⟨by decide, rfl, by decide,
   claim_C8_add_state_idempotent exW exM0 0 3 99 42 (by decide) rfl (by decide)⟩

/-- Claim C6: if during an `update` call no guard matches — the cache probe
misses and every guard of the current state evaluates false — then the
current state is unchanged, no callback fires, and the current state's cache
is empty after the call. -/
theorem claim_C6_no_match_stability (m : StateMachine T A) (cn : T) (args : A)
    (n : Nat) (h1 : m.current = some cn) (h2 : m.transCount cn = some n)
    (h3 : m.probeHit args = false)
    (h4 : ∀ j, j < n → m.guardAt cn j args = some false) :
    (m.updateM args).current = m.current ∧ m.updateEvents args = [] ∧
    (m.updateM args).cacheOf cn = none := by
  obtain ⟨cur, hf, hlen⟩ : ∃ cur, m.findState cn = some cur ∧
      cur.transitions.length = n := by
    unfold StateMachine.transCount at h2
    rcases Option.map_eq_some'.mp h2 with ⟨cur, hcur, hl⟩
    exact ⟨cur, hcur, hl⟩
  rw [probeHit_eq h1 hf args] at h3
  have hcur1 := try_cached_miss h3
  have hpr : cur.try_cached_transition cur.entity_id args =
      (false, { cur with cache := none },
       (cur.try_cached_transition cur.entity_id args).2.2) := by
    rw [← h3, ← hcur1]
  have heq := update_eq_of_miss h1 hf hpr
  dsimp only at heq
  have hall : ∀ t ∈ cur.transitions, t.condition cur.entity_id args = false := by
    intro t htm
    rcases List.mem_iff_getElem?.mp htm with ⟨j, hj⟩
    have hjn : j < n := hlen ▸ (List.getElem?_eq_some.mp hj).1
    have := h4 j hjn
    rw [guardAt_eq hf hj args] at this
    simpa using this
  have hscan := scanUpdate_no_match (m.setState cn { cur with cache := none })
    cn cur.entity_id cur.transitions 0 args hall
  refine ⟨?_, ?_, ?_⟩
  · rw [updateM_eq heq, hscan.1]
    rfl
  · rw [updateEvents_eq heq]
    exact hscan.2
  · rw [updateM_eq heq, hscan.1, cacheOf_eq (findState_setState_self _ hf)]

/-- Witness for C6: `exF1` sits in WALKING with an empty cache; at speed 2
tenths the only guard (to RUNNING) fails, so nothing changes. -/
theorem claim_C6_no_match_stability_witness :
    exF1.current = some 1 ∧ exF1.transCount 1 = some 1 ∧
    exF1.probeHit 2 = false ∧ (∀ j, j < 1 → exF1.guardAt 1 j 2 = some false) ∧
    ((exF1.updateM 2).current = exF1.current ∧ exF1.updateEvents 2 = [] ∧
     (exF1.updateM 2).cacheOf 1 = none) :=
  ⟨by decide, by decide, by decide, by decide,
   claim_C6_no_match_stability exF1 1 2 1 (by decide) (by decide) (by decide)
     (by decide)⟩

theorem setState_setState (m : StateMachine T A) (n : T) (s : State T A) :
    (m.setState n s).setState n s = m.setState n s := by
  unfold StateMachine.setState
  simp only [List.map_map]
  congr 1
  apply List.map_congr_left
  intro p _
  by_cases hk : p.1 = n <;> simp [hk]

/-- Claim C4: during `update`'s cache probe with a cached `(index, target)`
pair, if that one guard evaluates true the machine transitions to the cached
target having evaluated no other guard; if it evaluates false the cache is
cleared and the call behaves exactly like the machine with that cache slot
already cleared (the full scan), except that the failed cached-guard check is
recorded at the head of the guard trace. -/
theorem claim_C4_cache_probe (m : StateMachine T A) (cn tgt : T) (k : Nat)
    (args : A) (h1 : m.current = some cn)
    (h2 : m.cacheOf cn = some ⟨tgt, k⟩) :
    (m.guardAt cn k args = some true →
      m.probeHit args = true ∧ m.updateTrace args = [k] ∧
      (m.updateM args).current = some tgt) ∧
    (m.guardAt cn k args = some false →
      m.probeHit args = false ∧
      m.updateM args = (m.clearCacheAt cn).updateM args ∧
      m.updateEvents args = (m.clearCacheAt cn).updateEvents args ∧
      m.updateTrace args = k :: (m.clearCacheAt cn).updateTrace args) := by
  rcases cacheOf_some h2 with ⟨cur, hf, hc⟩
  constructor
  · intro hg
    rcases guardAt_some hf hg with ⟨t, ht, htg⟩
    have hpr := try_cached_of_guard_true hc ht htg
    have heq := update_eq_of_hit h1 hf hc hpr
    refine ⟨?_, ?_, ?_⟩
    · rw [probeHit_eq h1 hf args, hpr]
    · rw [updateTrace_eq heq]
    · rw [updateM_eq heq]
      exact handle_transition_current _ (by rw [setState_current, h1])
  · intro hg
    rcases guardAt_some hf hg with ⟨t, ht, htg⟩
    have hpr := try_cached_of_guard_false hc ht htg
    have heq := update_eq_of_miss h1 hf hpr
    dsimp only at heq
    have hclear : m.clearCacheAt cn = m.setState cn { cur with cache := none } := by
      unfold StateMachine.clearCacheAt
      rw [hf]
    have h1c : (m.clearCacheAt cn).current = some cn := by
      rw [hclear, setState_current, h1]
    have hfc : (m.clearCacheAt cn).findState cn =
        some { cur with cache := none } := by
      rw [hclear]
      exact findState_setState_self _ hf
    have hprc : State.try_cached_transition { cur with cache := none }
        (State.entity_id { cur with cache := none }) args =
        (false, { cur with cache := none }, []) :=
      try_cached_of_cache_none _ _ rfl
    have heqc := update_eq_of_miss h1c hfc hprc
    dsimp only at heqc
    have hmm : (m.clearCacheAt cn).setState cn { cur with cache := none } =
        m.setState cn { cur with cache := none } := by
      rw [hclear]
      exact setState_setState m cn _
    rw [hmm] at heqc
    refine ⟨?_, ?_, ?_, ?_⟩
    · rw [probeHit_eq h1 hf args, hpr]
    · rw [updateM_eq heq, updateM_eq heqc]
    · rw [updateEvents_eq heq, updateEvents_eq heqc]
    · rw [updateTrace_eq heq, updateTrace_eq heqc]
      rfl

/-- Witness for C4: `exA1` holds cache `(1, state 2)` on state 0; with
argument 0 the cached guard holds (true branch hypothesis) and with argument
5 it fails (false branch hypothesis); the witness instantiates the true
branch at argument 0. -/
theorem claim_C4_cache_probe_witness :
    exA1.current = some 0 ∧ exA1.cacheOf 0 = some ⟨2, 1⟩ ∧
    ((exA1.guardAt 0 1 0 = some true →
      exA1.probeHit 0 = true ∧ exA1.updateTrace 0 = [1] ∧
      (exA1.updateM 0).current = some 2) ∧
     (exA1.guardAt 0 1 0 = some false →
      exA1.probeHit 0 = false ∧
      exA1.updateM 0 = (exA1.clearCacheAt 0).updateM 0 ∧
      exA1.updateEvents 0 = (exA1.clearCacheAt 0).updateEvents 0 ∧
      exA1.updateTrace 0 = 1 :: (exA1.clearCacheAt 0).updateTrace 0)) :=
  ⟨by decide, by decide,
   claim_C4_cache_probe exA1 0 2 1 0 (by decide) (by decide)⟩

theorem get_current_state_eq {m : StateMachine T A} {cn : T} {s : State T A}
    (h1 : m.current = some cn) (h2 : m.findState cn = some s) :
    m.get_current_state = some s.name := by
  simp [StateMachine.get_current_state, h1, h2]

/-- Claim C7: `can_transition_to` never changes the machine's current state
(`get_current_state` is unchanged), fires no callback (its event list is
empty — the source never calls `enter`, `exit` or `handle_transition`), and
its only mutation is possibly the current state's cache slot: every other
state is untouched and the current state keeps every field except possibly
`cache`. -/
theorem claim_C7_can_frame (m : StateMachine T A) (cn tgt : T) (args : A)
    (h1 : m.current = some cn) :
    (m.canM tgt args).current = m.current ∧
    m.canEvents tgt args = [] ∧
    (m.canM tgt args).get_current_state = m.get_current_state ∧
    (∀ n, n ≠ cn → (m.canM tgt args).findState n = m.findState n) ∧
    (∀ s, m.findState cn = some s →
      ∃ co, (m.canM tgt args).findState cn = some { s with cache := co }) := by
  cases h3 : (m.findState tgt).isSome with
  | false =>
    have hcan : m.can_transition_to tgt args = none := by
      simp [StateMachine.can_transition_to, h1, h3]
    have hM : m.canM tgt args = m := by unfold StateMachine.canM; rw [hcan]
    have hE : m.canEvents tgt args = [] := by
      unfold StateMachine.canEvents; rw [hcan]
    refine ⟨by rw [hM], hE, by rw [hM], fun n _ => by rw [hM], fun s hs => ?_⟩
    exact ⟨s.cache, by rw [hM, hs]⟩
  | true =>
    cases h2 : m.findState cn with
    | none =>
      have hcan : m.can_transition_to tgt args = none := by
        simp [StateMachine.can_transition_to, h1, h2, h3]
      have hM : m.canM tgt args = m := by unfold StateMachine.canM; rw [hcan]
      have hE : m.canEvents tgt args = [] := by
        unfold StateMachine.canEvents; rw [hcan]
      refine ⟨by rw [hM], hE, by rw [hM], fun n _ => by rw [hM],
        fun s hs => by simp at hs⟩
    | some cur =>
      cases hb : (cur.try_cached_transition cur.entity_id args).1 with
      | true =>
        obtain ⟨hst, c, t, hc, ht, hg, htr⟩ := try_cached_hit hb
        have hpr := try_cached_of_guard_true hc ht hg
        have heq := can_eq_of_hit h1 h2 h3 hc hpr
        have hM := canM_eq heq
        have hfc : (m.canM tgt args).findState cn = some cur := by
          rw [hM]
          exact findState_setState_self _ h2
        refine ⟨by rw [hM]; rfl, canEvents_eq heq, ?_, ?_, ?_⟩
        · rw [get_current_state_eq (by rw [hM]; rw [setState_current, h1]) hfc,
            get_current_state_eq h1 h2]
        · intro n hn
          rw [hM]
          exact findState_setState_ne m _ hn
        · intro s hs
          obtain rfl : cur = s := by injection hs
          exact ⟨cur.cache, by rw [hfc]⟩
      | false =>
        have hcur1 := try_cached_miss hb
        have hpr : cur.try_cached_transition cur.entity_id args =
            (false, { cur with cache := none },
             (cur.try_cached_transition cur.entity_id args).2.2) := by
          rw [← hb, ← hcur1]
        have heq := can_eq_of_miss h1 h2 h3 hpr
        dsimp only at heq
        have hM := canM_eq heq
        dsimp only at hM
        have hf1 : (m.setState cn { cur with cache := none }).findState cn =
            some { cur with cache := none } := findState_setState_self _ h2
        obtain ⟨hcurr, hne, co, hcn⟩ := scanCan_frame cur.entity_id
          cur.transitions 0 tgt args hf1
        have hfc : (m.canM tgt args).findState cn =
            some { cur with cache := co } := by
          rw [hM]
          exact hcn
        refine ⟨?_, canEvents_eq heq, ?_, ?_, ?_⟩
        · rw [hM, hcurr]
          rfl
        · rw [get_current_state_eq (by rw [hM, hcurr]; rw [setState_current, h1]) hfc,
            get_current_state_eq h1 h2]
        · intro n hn
          rw [hM, hne n hn]
          exact findState_setState_ne m _ hn
        · intro s hs
          obtain rfl : cur = s := by injection hs
          exact ⟨co, hfc⟩

/-- Witness for C7 at a concrete machine: probing `can_transition_to(2, 5)`
on `exB` (whose guard to 2 holds) leaves current state and every non-current
entry untouched and only writes state 0's cache. -/
theorem claim_C7_can_frame_witness :
    exB.current = some 0 ∧
    ((exB.canM 2 5).current = exB.current ∧
     exB.canEvents 2 5 = [] ∧
     (exB.canM 2 5).get_current_state = exB.get_current_state ∧
     (∀ n, n ≠ 0 → (exB.canM 2 5).findState n = exB.findState n) ∧
     (∀ s, exB.findState 0 = some s →
       ∃ co, (exB.canM 2 5).findState 0 = some { s with cache := co })) :=
  ⟨by decide, claim_C7_can_frame exB 0 2 5 (by decide)⟩

/-- Claim C5: every `update` call either performs no transition (no events,
current unchanged) or performs exactly one transition from the old current
state `cn` to some state `B`, in which case the observable callback sequence
is exactly `cn`'s exit event (if its `on_exit` is set) followed by `B`'s
enter event (if its `on_enter` is set), each carrying its own state's entity
id; the machine's current state already equals `B` when `B`'s `on_enter`
runs — the first component of each event pair is the current state at the
moment the callback fires, and the enter event is tagged with `B`. -/
theorem claim_C5_exit_enter_order (m : StateMachine T A) (cn : T) (args : A)
    (h1 : m.current = some cn) :
    (m.updateEvents args = [] ∧ (m.updateM args).current = m.current) ∨
    (∃ B, (m.updateM args).current = some B ∧
      m.updateEvents args =
        (m.updateM args).exitEvents cn ++ (m.updateM args).enterEvents B) := by
  cases h2 : m.findState cn with
  | none =>
    have heq := update_eq_of_no_state args h1 h2
    have hM : m.updateM args = m := by unfold StateMachine.updateM; rw [heq]
    have hE : m.updateEvents args = [] := by
      unfold StateMachine.updateEvents; rw [heq]
    exact Or.inl ⟨hE, by rw [hM]⟩
  | some cur =>
    cases hb : (cur.try_cached_transition cur.entity_id args).1 with
    | true =>
      obtain ⟨hst, c, t, hc, ht, hg, htr⟩ := try_cached_hit hb
      have hpr := try_cached_of_guard_true hc ht hg
      have heq := update_eq_of_hit h1 h2 hc hpr
      have hM := updateM_eq heq
      have hE := updateEvents_eq heq
      dsimp only at hM hE
      have hcn1 : (m.setState cn cur).current = some cn := by
        rw [setState_current, h1]
      refine Or.inr ⟨c.target, ?_, ?_⟩
      · rw [hM]
        exact handle_transition_current _ hcn1
      · rw [hE, hM, handle_transition_events _ hcn1,
          handle_transition_machine _ hcn1]
        have hX : (StateMachine.mk (m.setState cn cur).states
            (some c.target)).exitEvents cn = (m.setState cn cur).exitEvents cn :=
          exitEvents_states_congr rfl cn
        rw [hX]
    | false =>
      have hcur1 := try_cached_miss hb
      have hpr : cur.try_cached_transition cur.entity_id args =
          (false, { cur with cache := none },
           (cur.try_cached_transition cur.entity_id args).2.2) := by
        rw [← hb, ← hcur1]
      have heq := update_eq_of_miss h1 h2 hpr
      dsimp only at heq
      have hM := updateM_eq heq
      have hE := updateEvents_eq heq
      dsimp only at hM hE
      rcases scanUpdate_cases (m.setState cn { cur with cache := none }) cn
        cur.entity_id cur.transitions 0 args with ⟨hs1, hs2⟩ | ⟨B, m1, hcu, hs1, hs2⟩
      · refine Or.inl ⟨?_, ?_⟩
        · rw [hE, hs2]
        · rw [hM, hs1]
          rfl
      · have hcn1 : m1.current = some cn := by
          rw [hcu, setState_current, h1]
        refine Or.inr ⟨B, ?_, ?_⟩
        · rw [hM, hs1]
          exact handle_transition_current _ hcn1
        · rw [hE, hs2, hM, hs1, handle_transition_events _ hcn1,
            handle_transition_machine _ hcn1]
          have hX : (StateMachine.mk m1.states (some B)).exitEvents cn =
              m1.exitEvents cn := exitEvents_states_congr rfl cn
          rw [hX]

/-- Witness for C5: on the walkthrough machine with callbacks installed,
`update(0.2)` from IDLE fires exactly IDLE's exit (none set) and WALKING's
enter, and current is WALKING when the enter callback runs. -/
theorem claim_C5_exit_enter_order_witness :
    exF.current = some 0 ∧
    ((exF.updateEvents 2 = [] ∧ (exF.updateM 2).current = exF.current) ∨
     (∃ B, (exF.updateM 2).current = some B ∧
       exF.updateEvents 2 =
         (exF.updateM 2).exitEvents 0 ++ (exF.updateM 2).enterEvents B)) :=
  ⟨by decide, claim_C5_exit_enter_order exF 0 2 (by decide)⟩

/-- Claim C10: guards in this embedding are pure functions, hence
deterministic by construction (identical entity id and arguments give the
same result).  If `can_transition_to tgt args` reports true, an immediately
following `update args` moves the current state to `tgt`: on the cache-probe
path the cache already points at `tgt` and its guard re-evaluates true; on
the scan path `can_transition_to` has just cached the discovered transition
to `tgt`, so `update` takes the cached path straight to it. -/
theorem claim_C10_can_then_update (m : StateMachine T A) (tgt : T) (args : A)
    (h : m.canB tgt args = true) :
    ((m.canM tgt args).updateM args).current = some tgt := by
  cases h1 : m.current with
  | none =>
    have hcan : m.can_transition_to tgt args = none := by
      simp [StateMachine.can_transition_to, h1]
    unfold StateMachine.canB at h
    rw [hcan] at h
    simp at h
  | some cn =>
    cases h3 : (m.findState tgt).isSome with
    | false =>
      have hcan : m.can_transition_to tgt args = none := by
        simp [StateMachine.can_transition_to, h1, h3]
      unfold StateMachine.canB at h
      rw [hcan] at h
      simp at h
    | true =>
      cases h2 : m.findState cn with
      | none =>
        have hcan : m.can_transition_to tgt args = none := by
          simp [StateMachine.can_transition_to, h1, h2, h3]
        unfold StateMachine.canB at h
        rw [hcan] at h
        simp at h
      | some cur =>
        cases hb : (cur.try_cached_transition cur.entity_id args).1 with
        | true =>
          obtain ⟨hst, c, t, hc, ht, hg, htr⟩ := try_cached_hit hb
          have hpr := try_cached_of_guard_true hc ht hg
          have heq := can_eq_of_hit h1 h2 h3 hc hpr
          rw [canB_eq heq] at h
          have hct : c.target = tgt := by simpa using h
          have hM := canM_eq heq
          dsimp only at hM
          have h1m : (m.canM tgt args).current = some cn := by
            rw [hM, setState_current, h1]
          have h2m : (m.canM tgt args).findState cn = some cur := by
            rw [hM]
            exact findState_setState_self _ h2
          have heq2 := update_eq_of_hit h1m h2m hc hpr
          rw [updateM_eq heq2]
          rw [handle_transition_current _ (by rw [setState_current, h1m])]
          rw [hct]
        | false =>
          have hcur1 := try_cached_miss hb
          have hpr : cur.try_cached_transition cur.entity_id args =
              (false, { cur with cache := none },
               (cur.try_cached_transition cur.entity_id args).2.2) := by
            rw [← hb, ← hcur1]
          have heq := can_eq_of_miss h1 h2 h3 hpr
          dsimp only at heq
          rw [canB_eq heq] at h
          dsimp only at h
          have hM := canM_eq heq
          dsimp only at hM
          have hf1 : (m.setState cn { cur with cache := none }).findState cn =
              some { cur with cache := none } := findState_setState_self _ h2
          obtain ⟨k, t, hkt, htt, htg, hfc⟩ := scanCan_true cur.entity_id
            cur.transitions 0 tgt args hf1
            (by intro j; rw [show (0 : Nat) + j = j by omega]) h
          obtain ⟨hcurr, -, -⟩ := scanCan_frame cur.entity_id
            (State.transitions { cur with cache := none }) 0 tgt args hf1
          have h1m : (m.canM tgt args).current = some cn := by
            rw [hM, hcurr, setState_current, h1]
          have h2m : (m.canM tgt args).findState cn =
              some (State.update_cache { cur with cache := none } k tgt) := by
            rw [hM]
            exact hfc
          have hc2 : (State.update_cache { cur with cache := none } k tgt).cache =
              some ⟨tgt, k⟩ := rfl
          have ht2 : (State.update_cache { cur with cache := none } k
              tgt).transitions[k]? = some t := hkt
          have hg2 : t.condition (State.update_cache { cur with cache := none } k
              tgt).entity_id args = true := htg
          have hpr2 := try_cached_of_guard_true hc2 ht2 hg2
          have heq2 := update_eq_of_hit h1m h2m hc2 hpr2
          rw [updateM_eq heq2]
          exact handle_transition_current _ (by rw [setState_current, h1m])

/-- Witness for C10: on `exA`, `can_transition_to(2, 0)` reports true (and
caches the transition to 2); the following `update(0)` indeed lands in
state 2. -/
theorem claim_C10_can_then_update_witness :
    exA.canB 2 0 = true ∧ ((exA.canM 2 0).updateM 0).current = some 2 :=
  ⟨by decide, claim_C10_can_then_update exA 2 0 (by decide)⟩

/-- Claim C1 counterexample: in the reachable machine `exA1` (state 0's
cache holds the second-added transition to state 2, planted by
`can_transition_to`), both guards of state 0 evaluate true for argument 1,
the first-added transition targets state 1, yet `update 1` takes the
cache-probe path and moves to state 2 — not to the target of the transition
that was added first. -/
theorem claim_C1_counterexample :
    exA1.current = some 0 ∧
    exA1.guardAt 0 0 1 = some true ∧
    exA1.guardAt 0 1 1 = some true ∧
    exA1.targetAt 0 0 = some 1 ∧
    exA1.targetAt 0 1 = some 2 ∧
    (exA1.updateM 1).current = some 2 ∧
    ¬(exA1.updateM 1).current = some 1 := by decide

/-- Claim C1 (amended): first-match priority holds on every `update` call
that takes the full-scan path (the cache probe misses, because the cache is
empty or the cached guard fails): the machine moves to the target of the
transition at the least index whose guard holds, and that transition is
recorded in the source state's cache.  On a cache-probe hit `update` instead
takes the cached transition, which need not be the first-added one whose
guard holds. -/
theorem claim_C1_first_match_on_scan (m : StateMachine T A) (cn : T) (k : Nat)
    (args : A) (h1 : m.current = some cn) (h2 : m.probeHit args = false)
    (h3 : m.guardAt cn k args = some true)
    (h4 : ∀ j, j < k → m.guardAt cn j args = some false) :
    (m.updateM args).current = m.targetAt cn k ∧
    (m.updateM args).cacheOf cn =
      (m.targetAt cn k).map (fun b => ⟨b, k⟩) := by
  obtain ⟨cur, hf⟩ : ∃ cur, m.findState cn = some cur := by
    cases hfc : m.findState cn with
    | none => unfold StateMachine.guardAt at h3; rw [hfc] at h3; simp at h3
    | some cur => exact ⟨cur, rfl⟩
  rcases guardAt_some hf h3 with ⟨t, ht, htg⟩
  rw [probeHit_eq h1 hf args] at h2
  have hcur1 := try_cached_miss h2
  have hpr : cur.try_cached_transition cur.entity_id args =
      (false, { cur with cache := none },
       (cur.try_cached_transition cur.entity_id args).2.2) := by
    rw [← h2, ← hcur1]
  have heq := update_eq_of_miss h1 hf hpr
  dsimp only at heq
  have hf1 : (m.setState cn { cur with cache := none }).findState cn =
      some { cur with cache := none } := findState_setState_self _ hf
  have hprev : ∀ j (t' : Transition T A), j < k → cur.transitions[j]? = some t' →
      t'.condition cur.entity_id args = false := by
    intro j t' hj hjt
    have := h4 j hj
    rw [guardAt_eq hf hjt args] at this
    simpa using this
  obtain ⟨hs1, hs2⟩ := scanUpdate_first_match 0 hf1 ht htg hprev
  rw [show (0 : Nat) + k = k by omega] at hs1
  have hM := updateM_eq heq
  dsimp only at hM
  rw [hM, hs1]
  have hcn1 : ((m.setState cn { cur with cache := none }).setState cn
      (State.update_cache { cur with cache := none } k t.target)).current =
      some cn := by
    rw [setState_current, setState_current, h1]
  constructor
  · rw [handle_transition_current _ hcn1, targetAt_eq hf ht]
  · rw [targetAt_eq hf ht]
    have hff : (((m.setState cn { cur with cache := none }).setState cn
        (State.update_cache { cur with cache := none } k t.target)).handle_transition
          t.target).1.findState cn =
        some (State.update_cache { cur with cache := none } k t.target) := by
      rw [findState_states_congr (handle_transition_states _ _) cn]
      exact findState_setState_self _ hf1
    rw [cacheOf_eq hff]
    rfl

/-- Witness for the amended C1: on `exF` with speed 2 the probe misses (no
cache) and the first transition's guard holds at index 0, so `update` takes
it and caches it. -/
theorem claim_C1_first_match_on_scan_witness :
    exF.current = some 0 ∧ exF.probeHit 2 = false ∧
    exF.guardAt 0 0 2 = some true ∧ (∀ j, j < 0 → exF.guardAt 0 j 2 = some false) ∧
    ((exF.updateM 2).current = exF.targetAt 0 0 ∧
     (exF.updateM 2).cacheOf 0 = (exF.targetAt 0 0).map (fun b => ⟨b, 0⟩)) :=
  ⟨by decide, by decide, by decide, by decide,
   claim_C1_first_match_on_scan exF 0 0 2 (by decide) (by decide) (by decide)
     (by decide)⟩

/-- Claim C2 counterexample: on the specification's own walkthrough machine
`exF`, `update(0.2)` transitions IDLE to WALKING via full scan (probe
misses), and the same guard still holds for the same argument; but the
immediately following `update(0.2)` does NOT take the cached path: the cache
was written on the source state IDLE while the machine now sits in WALKING,
whose cache is empty, so the second call runs the full scan (evaluating
WALKING's guard at index 0) and no cached guard at all. -/
theorem claim_C2_counterexample :
    exF.probeHit 2 = false ∧
    exF1.current = some 1 ∧
    exF.guardAt 0 0 2 = some true ∧
    exF.cacheOf 0 = none ∧
    exF1.cacheOf 0 = some ⟨1, 0⟩ ∧
    exF1.cacheOf 1 = none ∧
    exF1.probeHit 2 = false ∧
    exF1.updateTrace 2 = [0] ∧
    (exF1.updateM 2).current = some 1 := by decide

/-- Claim C2 (amended): a successful full-scan transition records itself in
the source state's cache; when that transition is a self-loop (its target is
the source state itself), the machine is again in the source state, so an
immediate subsequent `update` with arguments that still satisfy the same
guard takes the cached path, produces the identical target, and invokes
exactly one guard (the cached one).  For a non-self-loop transition the next
`update` runs from the target state and does not consult the source state's
cache. -/
theorem claim_C2_cached_self_loop (m : StateMachine T A) (cn : T) (k : Nat)
    (args args2 : A) (h1 : m.current = some cn) (h2 : m.probeHit args = false)
    (h3 : m.guardAt cn k args = some true)
    (h4 : ∀ j, j < k → m.guardAt cn j args = some false)
    (h5 : m.targetAt cn k = some cn)
    (h6 : m.guardAt cn k args2 = some true) :
    (m.updateM args).current = some cn ∧
    (m.updateM args).probeHit args2 = true ∧
    (m.updateM args).updateTrace args2 = [k] ∧
    ((m.updateM args).updateM args2).current = some cn := by
  obtain ⟨cur, hf⟩ : ∃ cur, m.findState cn = some cur := by
    cases hfc : m.findState cn with
    | none => unfold StateMachine.guardAt at h3; rw [hfc] at h3; simp at h3
    | some cur => exact ⟨cur, rfl⟩
  rcases guardAt_some hf h3 with ⟨t, ht, htg⟩
  have htt : t.target = cn := by
    rw [targetAt_eq hf ht] at h5
    simpa using h5
  rcases guardAt_some hf h6 with ⟨t', ht', htg2'⟩
  have htt' : t' = t := by rw [ht] at ht'; injection ht'.symm
  have htg2 : t.condition cur.entity_id args2 = true := htt' ▸ htg2'
  rw [probeHit_eq h1 hf args] at h2
  have hcur1 := try_cached_miss h2
  have hpr : cur.try_cached_transition cur.entity_id args =
      (false, { cur with cache := none },
       (cur.try_cached_transition cur.entity_id args).2.2) := by
    rw [← h2, ← hcur1]
  have heq := update_eq_of_miss h1 hf hpr
  dsimp only at heq
  have hf1 : (m.setState cn { cur with cache := none }).findState cn =
      some { cur with cache := none } := findState_setState_self _ hf
  have hprev : ∀ j (t' : Transition T A), j < k → cur.transitions[j]? = some t' →
      t'.condition cur.entity_id args = false := by
    intro j t' hj hjt
    have := h4 j hj
    rw [guardAt_eq hf hjt args] at this
    simpa using this
  obtain ⟨hs1, hs2⟩ := scanUpdate_first_match 0 hf1 ht htg hprev
  rw [show (0 : Nat) + k = k by omega] at hs1
  have hM := updateM_eq heq
  dsimp only at hM
  rw [hM, hs1]
  set s1 := State.update_cache { cur with cache := none } k t.target with hs1def
  have hcn1 : ((m.setState cn { cur with cache := none }).setState cn
      s1).current = some cn := by
    rw [setState_current, setState_current, h1]
  have hcurNew : (((m.setState cn { cur with cache := none }).setState cn
      s1).handle_transition t.target).1.current = some cn := by
    rw [handle_transition_current _ hcn1, htt]
  have hffNew : (((m.setState cn { cur with cache := none }).setState cn
      s1).handle_transition t.target).1.findState cn = some s1 := by
    rw [findState_states_congr (handle_transition_states _ _) cn]
    exact findState_setState_self _ hf1
  have hc2 : s1.cache = some ⟨t.target, k⟩ := rfl
  have ht2 : s1.transitions[k]? = some t := ht
  have hg2 : t.condition s1.entity_id args2 = true := htg2
  have hpr2 := try_cached_of_guard_true hc2 ht2 hg2
  refine ⟨hcurNew, ?_, ?_, ?_⟩
  · rw [probeHit_eq hcurNew hffNew args2, hpr2]
  · have hc2' : s1.cache = some ⟨cn, k⟩ := by rw [hc2, htt]
    have heq2 := update_eq_of_hit hcurNew hffNew hc2 hpr2
    rw [updateTrace_eq heq2]
  · have heq2 := update_eq_of_hit hcurNew hffNew hc2 hpr2
    rw [updateM_eq heq2]
    rw [handle_transition_current _ (by rw [setState_current, hcurNew])]
    rw [htt]

/-- Witness for the amended C2: `exS` has a self-loop on state 0 guarded by
a positive argument; after `update 1` transitions 0 to 0 via full scan, the
next `update 2` hits the cache, evaluates exactly the cached guard and stays
in state 0. -/
theorem claim_C2_cached_self_loop_witness :
    exS.current = some 0 ∧ exS.probeHit 1 = false ∧
    exS.guardAt 0 0 1 = some true ∧ (∀ j, j < 0 → exS.guardAt 0 j 1 = some false) ∧
    exS.targetAt 0 0 = some 0 ∧ exS.guardAt 0 0 2 = some true ∧
    ((exS.updateM 1).current = some 0 ∧
     (exS.updateM 1).probeHit 2 = true ∧
     (exS.updateM 1).updateTrace 2 = [0] ∧
     ((exS.updateM 1).updateM 2).current = some 0) :=
  ⟨by decide, by decide, by decide, by decide, by decide, by decide,
   claim_C2_cached_self_loop exS 0 0 1 2 (by decide) (by decide) (by decide)
     (by decide) (by decide) (by decide)⟩

/-- Claim C3 counterexample: on `exB` (state 0 with always-true transitions
to 1 and to 2, both caches empty so both calls probe-miss and scan),
`update` evaluates guard 0 and stops, while `can_transition_to 2` skips
transition 0 without evaluating its guard (its target comparison
short-circuits the `&&`) and evaluates guard 1: the evaluated-guard traces
differ, the caches left behind differ, and the discovered transitions
differ. -/
theorem claim_C3_counterexample :
    exB.updateTrace 5 = [0] ∧
    exB.canTrace 2 5 = [1] ∧
    ¬exB.updateTrace 5 = exB.canTrace 2 5 ∧
    (exB.updateM 5).cacheOf 0 = some ⟨1, 0⟩ ∧
    (exB.canM 2 5).cacheOf 0 = some ⟨2, 1⟩ ∧
    ¬(exB.updateM 5).cacheOf 0 = (exB.canM 2 5).cacheOf 0 ∧
    exB.canB 2 5 = true := by decide

/-- Claim C3 (amended): `can_transition_to` shares `update`'s cache probe
(the same `try_cached_transition` step), but its full scan is
target-filtered rather than identical to `update`'s: starting from an empty
cache it evaluates, in insertion order, only the guards of transitions whose
target equals the queried state (every index in its guard trace names a
transition targeting the query), reports true exactly when some
target-matching transition's guard holds first, and records that first
match in the current state's cache; the guards evaluated, the cache left
behind and the transition discovered therefore differ in general from
`update`'s on the same inputs. -/
theorem claim_C3_target_filtered_scan (m : StateMachine T A) (cn tgt : T)
    (args : A) (h1 : m.current = some cn) (h2 : m.has_state tgt = true)
    (h3 : m.cacheOf cn = none) (h4 : (m.findState cn).isSome = true) :
    m.canB tgt args = (m.firstTargetIdx cn tgt args).isSome ∧
    (∀ k, m.firstTargetIdx cn tgt args = some k →
      (m.canM tgt args).cacheOf cn = some ⟨tgt, k⟩) ∧
    (∀ j ∈ m.canTrace tgt args, m.targetAt cn j = some tgt) := by
  obtain ⟨cur, hf⟩ : ∃ cur, m.findState cn = some cur := by
    cases hfc : m.findState cn with
    | none => rw [hfc] at h4; simp at h4
    | some cur => exact ⟨cur, rfl⟩
  have hcache : cur.cache = none := by
    rw [cacheOf_eq hf] at h3
    exact h3
  have hpr := try_cached_of_cache_none cur.entity_id args hcache
  have h3' : (m.findState tgt).isSome = true := h2
  have heq := can_eq_of_miss h1 hf h3' hpr
  have hf1 : (m.setState cn cur).findState cn = some cur :=
    findState_setState_self _ hf
  have hts : ∀ k : Nat, cur.transitions[k]? = cur.transitions[0 + k]? := by
    intro k
    rw [show (0 : Nat) + k = k by omega]
  obtain ⟨hb, hcachek⟩ := scanCan_findIdx cur.entity_id cur.transitions 0 tgt
    args hf1
  have hfti : m.firstTargetIdx cn tgt args =
      cur.transitions.findIdx?
        (fun t => decide (t.target = tgt) && t.condition cur.entity_id args) := by
    unfold StateMachine.firstTargetIdx
    rw [hf]
  refine ⟨?_, ?_, ?_⟩
  · rw [canB_eq heq, hfti]
    exact hb
  · intro k hk
    rw [hfti] at hk
    rw [canM_eq heq]
    have := hcachek k hk
    rw [cacheOf_eq this]
    rfl
  · intro j hj
    rw [canTrace_eq heq] at hj
    dsimp only at hj
    rw [List.nil_append] at hj
    obtain ⟨t, hjt, htj⟩ := scanCan_trace_targets cur.entity_id
      cur.transitions 0 tgt args hts j hj
    rw [targetAt_eq hf hjt, htj]

/-- Witness for the amended C3 on `exB`, querying target 2: the first
target-matching index is 1, which is cached, and the trace contains only
indices of transitions targeting 2. -/
theorem claim_C3_target_filtered_scan_witness :
    exB.current = some 0 ∧ exB.has_state 2 = true ∧ exB.cacheOf 0 = none ∧
    (exB.findState 0).isSome = true ∧
    (exB.canB 2 5 = (exB.firstTargetIdx 0 2 5).isSome ∧
     (∀ k, exB.firstTargetIdx 0 2 5 = some k →
       (exB.canM 2 5).cacheOf 0 = some ⟨2, k⟩) ∧
     (∀ j ∈ exB.canTrace 2 5, exB.targetAt 0 j = some 2)) :=
  ⟨by decide, by decide, by decide, by decide,
   claim_C3_target_filtered_scan exB 0 2 5 (by decide) (by decide) (by decide)
     (by decide)⟩

end FSM
